import Mathlib

/-!
# Inventory ledger engine: shallow embedding and verification

This file embeds the core of a small inventory/order dashboard (a single
Python/Streamlit source file) and proves the specified properties of its
ledger engine: movement application, compensating reversal, the order
queue, and the reporting views.

The six transaction kinds are the Korean labels of the source's radio
buttons: 입고 (IN), 출고 (OUT), 파손 (DAMAGE), 반품 (RETURN),
취소(증가) (CANCEL_INCREASE), 취소(감소) (CANCEL_DECREASE).
Timestamps `YYYY-MM-DD HH:MM:SS` are modelled as a year-month component
plus a remainder; lexicographic comparison of the fixed-width timestamp
strings coincides with the lexicographic order on these two components.
Quantities and prices are Python ints, modelled as `Int`.
-/

/-- The six transaction kinds offered by the 입출고 radio control. -/
inductive Kind : Type
  | IN
  | OUT
  | DAMAGE
  | RETURN
  | CANCEL_INCREASE
  | CANCEL_DECREASE
deriving DecidableEq

/-- Membership in the increasing group `["입고", "반품", "취소(증가)"]`
tested at line 207 of the source. -/
def isIncreasing (k : Kind) : Bool :=
  match k with
  | Kind.IN => true
  | Kind.RETURN => true
  | Kind.CANCEL_INCREASE => true
  | _ => false

/-- Membership in the decreasing group `["출고", "파손", "취소(감소)"]`
tested at line 211 of the source. -/
def isDecreasing (k : Kind) : Bool :=
  match k with
  | Kind.OUT => true
  | Kind.DAMAGE => true
  | Kind.CANCEL_DECREASE => true
  | _ => false

/-- The client-requirement exemption: the source tests
`"파손" not in tx_type`; among the six fixed labels only the DAMAGE
label 파손 contains the substring 파손, so the test holds exactly for
`Kind.DAMAGE`. -/
def clientExempt (k : Kind) : Bool :=
  match k with
  | Kind.DAMAGE => true
  | _ => false

/-- A timestamp `YYYY-MM-DD HH:MM:SS`: `ym` encodes the `YYYY-MM` prefix
(the 월 key used by the revenue analysis) and `sub` the rest. -/
structure Timestamp : Type where
  ym : Nat
  sub : Nat
deriving DecidableEq

/-- `tsGe a b` holds when timestamp `a` is at least timestamp `b`; this is
the comparison behind `sort_values(by="일시", ascending=False)` on the
fixed-width timestamp strings. -/
def tsGe (a b : Timestamp) : Bool :=
  Nat.blt b.ym a.ym || (b.ym == a.ym && Nat.ble b.sub a.sub)

/-- A row of `inventory.csv`: 책 이름, ISBN, 가격, 현재 수량, 안전 재고. -/
structure BookRecord : Type where
  name : String
  isbn : String
  unitPrice : Int
  quantity : Int
  safetyStockThreshold : Int
deriving DecidableEq

/-- A row of `transactions.csv`: 일시, 거래처, 책 이름, 수량, 가격, 유형. -/
structure TransactionRecord : Type where
  timestamp : Timestamp
  client : String
  bookName : String
  quantity : Int
  unitPrice : Int
  kind : Kind
deriving DecidableEq

/-- The order statuses 미처리 (PENDING) and 처리 (FULFILLED). -/
inductive OrderStatus : Type
  | PENDING
  | FULFILLED
deriving DecidableEq

/-- A row of `orders.csv`: 일시, 거래처, 책 이름, 주문 수량, 상태. -/
structure OrderRequest : Type where
  timestamp : Timestamp
  client : String
  bookName : String
  requestedQuantity : Int
  status : OrderStatus
deriving DecidableEq

/-- The three datasets held in memory between load and save. -/
structure State : Type where
  inventory : List BookRecord
  transactions : List TransactionRecord
  orders : List OrderRequest
deriving DecidableEq

/-- First inventory row whose 책 이름 equals `n`
(`df_inventory[df_inventory['책 이름'] == selected_book].iloc[0]`). -/
def findBook (inv : List BookRecord) (n : String) : Option BookRecord :=
  inv.find? (fun b => b.name == n)

/-- `df_inventory.loc[df_inventory['책 이름'] == n, '현재 수량'] = q`:
every row named `n` gets quantity `q`. -/
def setQty (inv : List BookRecord) (n : String) (q : Int) : List BookRecord :=
  inv.map (fun b => if b.name = n then { b with quantity := q } else b)

/-- The 현재 수량 of the first inventory row named `n` (0 if absent). -/
def qtyOf (s : State) (n : String) : Int :=
  match findBook s.inventory n with
  | some b => b.quantity
  | none => 0

inductive LedgerError : Type
  | MissingClient
  | UnknownBook
  | InsufficientStock
deriving DecidableEq

/-- Commit of a successful movement: the inventory row is updated and one
transaction row is appended (`pd.concat([df_transactions, new_tx])`). -/
def commitMove (s : State) (bookName : String) (newQty : Int)
    (rec : TransactionRecord) : State :=
  { s with inventory := setQty s.inventory bookName newQty,
           transactions := s.transactions ++ [rec] }

/-- The `new_tx` row built at source lines 219-226: current time, the
client (falling back to the literal "N/A" when empty), the book, the
quantity, the book's price at the time of the call, and the kind. -/
def mkTx (now : Timestamp) (client bookName : String) (qty price : Int)
    (kind : Kind) : TransactionRecord :=
  { timestamp := now, client := if client = "" then "N/A" else client,
    bookName := bookName, quantity := qty, unitPrice := price,
    kind := kind }

/-- The 입출고 입력 handler (source lines 194-234).  Checks the client
requirement, resolves the book, classifies the kind, checks stock for the
decreasing group, then commits the new quantity together with the
`new_tx` record.  The final catch-all branch (kind in neither group) is
unreachable: see `kind_group_partition`. -/
def applyMovement (s : State) (kind : Kind) (client : String)
    (bookName : String) (qty : Int) (now : Timestamp) :
    Except LedgerError State :=
  if clientExempt kind = false ∧ client = "" then
    Except.error LedgerError.MissingClient
  else
    match findBook s.inventory bookName with
    | none => Except.error LedgerError.UnknownBook
    | some bk =>
      if isIncreasing kind then
        Except.ok (commitMove s bookName (bk.quantity + qty)
          (mkTx now client bookName qty bk.unitPrice kind))
      else if isDecreasing kind then
        if bk.quantity < qty then
          Except.error LedgerError.InsufficientStock
        else
          Except.ok (commitMove s bookName (bk.quantity - qty)
            (mkTx now client bookName qty bk.unitPrice kind))
      else
        Except.ok (commitMove s bookName bk.quantity
          (mkTx now client bookName qty bk.unitPrice kind))

/-- The structural identity used by the cancellation screen: the
display text `일시 | 유형 | 책 이름 (수량권)` and the row filter at
source lines 284-289 both identify a transaction by this tuple. -/
structure TxKey : Type where
  timestamp : Timestamp
  bookName : String
  kind : Kind
  quantity : Int
deriving DecidableEq

def txKey (r : TransactionRecord) : TxKey :=
  { timestamp := r.timestamp, bookName := r.bookName,
    kind := r.kind, quantity := r.quantity }

/-- The 20 candidate rows offered for cancellation:
`df_transactions.sort_values(by="일시", ascending=False).head(20)`. -/
def recentTx (log : List TransactionRecord) : List TransactionRecord :=
  (List.insertionSort (fun a b => tsGe a.timestamp b.timestamp = true) log).take 20

/-- The inverse delta of a reverted kind (source lines 267-273):
`-q` for the increasing group, `+q` for the decreasing group, `0` in the
unreachable catch-all. -/
def revertDelta (k : Kind) (q : Int) : Int :=
  if isIncreasing k then -q else if isDecreasing k then q else 0

/-- Locate and remove the first row of the log matching the structural
key, in storage order (`original_index = df_transactions[...made of the
four key fields...].index; df_transactions.drop(original_index[0])`).
Returns the dropped row and the remaining log. -/
def dropFirstMatch (key : TxKey) :
    List TransactionRecord →
    Option (TransactionRecord × List TransactionRecord)
  | [] => none
  | r :: rs =>
    if txKey r = key then some (r, rs)
    else (dropFirstMatch key rs).map (fun p => (p.1, r :: p.2))

inductive RevertError : Type
  | TargetNotInWindow
  | UnknownBook
  | WouldGoNegative
  | TargetNotFound
deriving DecidableEq

/-- The 거래 기록 취소 handler (source lines 244-303).  The target must be
selected among the 20 most recent rows; the inverse delta is applied to
the book's quantity unless it would drive it negative; the first
structurally matching row is removed from the log.  `TargetNotFound`
mirrors the dead `original_index.empty` branch, in which nothing is
committed. -/
def revertTransaction (s : State) (key : TxKey) :
    Except RevertError State :=
  match (recentTx s.transactions).find? (fun r => txKey r == key) with
  | none => Except.error RevertError.TargetNotInWindow
  | some target =>
    match findBook s.inventory target.bookName with
    | none => Except.error RevertError.UnknownBook
    | some bk =>
      if bk.quantity + revertDelta target.kind target.quantity < 0 then
        Except.error RevertError.WouldGoNegative
      else
        match dropFirstMatch key s.transactions with
        | none => Except.error RevertError.TargetNotFound
        | some p =>
          Except.ok { s with
            inventory := setQty s.inventory target.bookName
              (bk.quantity + revertDelta target.kind target.quantity),
            transactions := p.2 }

/-- One user action against the ledger: a movement entry or a
cancellation. -/
inductive Op : Type
  | move (kind : Kind) (client : String) (bookName : String)
      (qty : Int) (now : Timestamp)
  | revert (key : TxKey)

/-- Run one action; a failed action leaves the committed state unchanged
(validate-then-commit). -/
def step (s : State) (op : Op) : State :=
  match op with
  | Op.move k c b q t =>
    match applyMovement s k c b q t with
    | Except.ok s' => s'
    | Except.error _ => s
  | Op.revert key =>
    match revertTransaction s key with
    | Except.ok s' => s'
    | Except.error _ => s

/-- Run a sequence of ledger actions. -/
def exec (s : State) (ops : List Op) : State :=
  ops.foldl step s

/-- The signed contribution of one transaction row: `+수량` for the
increasing group, `-수량` otherwise. -/
def signedQty (r : TransactionRecord) : Int :=
  if isIncreasing r.kind then r.quantity else -r.quantity

/-- The signed contribution of row `r` to book `b`. -/
def contrib (b : String) (r : TransactionRecord) : Int :=
  if r.bookName = b then signedQty r else 0

/-- Net effect of a transaction log on book `b`: the signed sum of the
quantities of its rows for that book. -/
def netEffect (log : List TransactionRecord) (b : String) : Int :=
  (log.map (contrib b)).sum

/-- Rows of the selected month (`df_analysis[df_analysis['월'] ==
selected_month]`, where 월 is the `YYYY-MM` prefix of 일시). -/
def monthlyData (log : List TransactionRecord) (m : Nat) :
    List TransactionRecord :=
  log.filter (fun r => r.timestamp.ym == m)

/-- `monthly_data.groupby('유형')['총액'].sum()` followed by
`summary.get(kind, 0)`, with 총액 = 수량 * 가격. -/
def kindTotal (rows : List TransactionRecord) (k : Kind) : Int :=
  ((rows.filter (fun r => r.kind == k)).map
    (fun r => r.quantity * r.unitPrice)).sum

/-- 총 수익 (source line 414): (출고 + 취소(감소)) - 반품. -/
def revenue (log : List TransactionRecord) (m : Nat) : Int :=
  (kindTotal (monthlyData log m) Kind.OUT
    + kindTotal (monthlyData log m) Kind.CANCEL_DECREASE)
    - kindTotal (monthlyData log m) Kind.RETURN

/-- 총 비용 (source line 417): (입고 + 취소(증가)) + 파손. -/
def cost (log : List TransactionRecord) (m : Nat) : Int :=
  (kindTotal (monthlyData log m) Kind.IN
    + kindTotal (monthlyData log m) Kind.CANCEL_INCREASE)
    + kindTotal (monthlyData log m) Kind.DAMAGE

/-- 순이익 (source line 419): revenue - cost. -/
def netProfit (log : List TransactionRecord) (m : Nat) : Int :=
  revenue log m - cost log m

/-- The spec's `S(k)`: the sum of quantity * unitPrice over the records
of kind `k` whose timestamp falls in month `m` (0 when the kind is
absent from the month). -/
def sumForKind (log : List TransactionRecord) (m : Nat) (k : Kind) : Int :=
  ((log.filter (fun r => r.timestamp.ym == m && r.kind == k)).map
    (fun r => r.quantity * r.unitPrice)).sum

/-- A sample month of transactions realizing the spec's worked example:
OUT total 100000, RETURN total 10000, IN total 40000, DAMAGE total 5000. -/
def exampleMonthLog : List TransactionRecord :=
  [ { timestamp := ⟨202501, 1⟩, client := "Bookstore A", bookName := "Intro to Systems",
      quantity := 10, unitPrice := 10000, kind := Kind.OUT },
    { timestamp := ⟨202501, 2⟩, client := "Bookstore A", bookName := "Intro to Systems",
      quantity := 1, unitPrice := 10000, kind := Kind.RETURN },
    { timestamp := ⟨202501, 3⟩, client := "Press", bookName := "Intro to Systems",
      quantity := 4, unitPrice := 10000, kind := Kind.IN },
    { timestamp := ⟨202501, 4⟩, client := "N/A", bookName := "Intro to Systems",
      quantity := 1, unitPrice := 5000, kind := Kind.DAMAGE } ]

/-- Modelled from the spec: the per-client total quantity shipped out,
summing 수량 over the client's OUT records.  The return-rate view
(`returnRateByClient`) exists only in a repository revision not included
in the sources; its computation is taken from the spec's words. -/
def totalOutQty (log : List TransactionRecord) (c : String) : Int :=
  ((log.filter (fun r => r.client == c && r.kind == Kind.OUT)).map
    (fun r => r.quantity)).sum

/-- Modelled from the spec: the per-client total quantity returned,
summing 수량 over the client's RETURN records. -/
def totalReturnedQty (log : List TransactionRecord) (c : String) : Int :=
  ((log.filter (fun r => r.client == c && r.kind == Kind.RETURN)).map
    (fun r => r.quantity)).sum

/-- Modelled from the spec: `returnRateByClient()` — for a client,
`rate = totalReturnedQty / totalOutQty * 100`, and `0` when
`totalOutQty == 0`.  (The caller restricts to clients ≠ "N/A".) -/
def returnRateByClient (log : List TransactionRecord) (c : String) : ℚ :=
  if totalOutQty log c = 0 then 0
  else (totalReturnedQty log c : ℚ) / (totalOutQty log c : ℚ) * 100

inductive OrderError : Type
  | MissingClient
deriving DecidableEq

/-- The 주문 청구 handler (source lines 155-167): requires a non-empty
client, then appends one 미처리 (PENDING) order row.  The book name is
drawn from the Catalog by the form's selectbox; no stock check is made
and the inventory is untouched. -/
def submitOrder (s : State) (client bookName : String) (qty : Int)
    (now : Timestamp) : Except OrderError State :=
  if client = "" then Except.error OrderError.MissingClient
  else
    Except.ok { s with orders := s.orders ++
      [ { timestamp := now, client := client, bookName := bookName,
          requestedQuantity := qty, status := OrderStatus.PENDING } ] }

/-- `df_orders.loc[idx, '상태'] = "처리"`: set the status of order row
`idx` to FULFILLED; out-of-range indices change nothing. -/
def setStatusFulfilled (orders : List OrderRequest) (idx : Nat) :
    List OrderRequest :=
  match orders[idx]? with
  | none => orders
  | some o => orders.set idx { o with status := OrderStatus.FULFILLED }

/-- The 처리 완료 button handler (source lines 336-341). -/
def fulfillOrder (s : State) (idx : Nat) : State :=
  { s with orders := setStatusFulfilled s.orders idx }

/-- Sample catalog row used to instantiate the verified properties. -/
def wBook : BookRecord :=
  { name := "Intro to Systems", isbn := "889", unitPrice := 10000,
    quantity := 50, safetyStockThreshold := 5 }

/-- Sample loaded state: one book, no history. -/
def wState : State :=
  { inventory := [wBook], transactions := [], orders := [] }

/-- A second sample catalog row. -/
def wBook2 : BookRecord :=
  { name := "b", isbn := "i", unitPrice := 100, quantity := 10,
    safetyStockThreshold := 2 }

/-- Sample state around `wBook2`. -/
def wState2 : State :=
  { inventory := [wBook2], transactions := [], orders := [] }

/-- A sample pending order. -/
def wOrder : OrderRequest :=
  { timestamp := ⟨202501, 1⟩, client := "alice", bookName := "b",
    requestedQuantity := 3, status := OrderStatus.PENDING }

/-- Sample state with one pending order. -/
def wState3 : State :=
  { inventory := [wBook2], transactions := [], orders := [wOrder] }

/-- A book with zero stock, for exercising the reversal guard. -/
def c4Book : BookRecord :=
  { name := "b", isbn := "i", unitPrice := 100, quantity := 0,
    safetyStockThreshold := 0 }

/-- A logged IN movement of 5 of `c4Book`. -/
def c4Tx : TransactionRecord :=
  { timestamp := ⟨202501, 1⟩, client := "c", bookName := "b",
    quantity := 5, unitPrice := 100, kind := Kind.IN }

/-- State in which reverting `c4Tx` would drive the stock to -5. -/
def c4State : State :=
  { inventory := [c4Book], transactions := [c4Tx], orders := [] }

/-- The i-th of 21 logged movements with increasing timestamps. -/
def c10Tx (i : Nat) : TransactionRecord :=
  { timestamp := ⟨202501, i⟩, client := "c", bookName := "b",
    quantity := 1, unitPrice := 1000, kind := Kind.IN }

/-- The catalog row referenced by the 21 movements. -/
def c10Book : BookRecord :=
  { name := "b", isbn := "i", unitPrice := 1000, quantity := 100,
    safetyStockThreshold := 0 }

/-- A state whose log holds 21 movements, so that the oldest one falls
outside the 20-row cancellation window. -/
def c10State : State :=
  { inventory := [c10Book],
    transactions := (List.range 21).map c10Tx, orders := [] }

/-- The structural key of the oldest of the 21 movements. -/
def c10Key : TxKey :=
  { timestamp := ⟨202501, 0⟩, bookName := "b", kind := Kind.IN,
    quantity := 1 }

theorem kind_group_partition (k : Kind) :
    isIncreasing k = true ∨ isDecreasing k = true := by
  cases k <;> simp [isIncreasing, isDecreasing]

theorem not_increasing_decreasing {k : Kind} (h : isIncreasing k = false) :
    isDecreasing k = true := by
  cases k <;> simp_all [isIncreasing, isDecreasing]

theorem increasing_not_decreasing {k : Kind} (h : isIncreasing k = true) :
    isDecreasing k = false := by
  cases k <;> simp_all [isIncreasing, isDecreasing]

theorem tsGe_refl (a : Timestamp) : tsGe a a = true := by
  simp [tsGe, Nat.ble_eq]

theorem tsGe_of_not_tsGe {a b : Timestamp} (h : tsGe a b = false) :
    tsGe b a = true := by
  have h' : ¬ (tsGe a b = true) := by rw [h]; exact Bool.false_ne_true
  simp only [tsGe, Bool.or_eq_true, Bool.and_eq_true, Nat.blt_eq,
    Nat.ble_eq, beq_iff_eq] at h' ⊢
  omega

theorem eq_ts_of_not_tsGe {a b : Timestamp} (h : tsGe a b = false) :
    a ≠ b := by
  intro he
  subst he
  rw [tsGe_refl] at h
  exact absurd h (by simp)

theorem findBook_cons (x : BookRecord) (xs : List BookRecord) (n : String) :
    findBook (x :: xs) n = if x.name = n then some x else findBook xs n := by
  by_cases hx : x.name = n
  · rw [if_pos hx]
    exact List.find?_cons_of_pos xs (by simp [hx])
  · rw [if_neg hx]
    exact List.find?_cons_of_neg xs (by simp [hx])

theorem setQty_cons (x : BookRecord) (xs : List BookRecord) (n : String)
    (q : Int) :
    setQty (x :: xs) n q
      = (if x.name = n then { x with quantity := q } else x)
        :: setQty xs n q := by
  simp only [setQty, List.map_cons]

theorem name_update (x : BookRecord) (q : Int) :
    ({ x with quantity := q } : BookRecord).name = x.name := rfl

theorem findBook_setQty_same {inv : List BookRecord} {n : String}
    {b : BookRecord} (h : findBook inv n = some b) (q : Int) :
    findBook (setQty inv n q) n = some { b with quantity := q } := by
  induction inv with
  | nil => simp [findBook] at h
  | cons x xs ih =>
    rw [findBook_cons] at h
    rw [setQty_cons]
    by_cases hx : x.name = n
    · rw [if_pos hx] at h
      have hxb : x = b := by injection h
      subst hxb
      rw [if_pos hx, findBook_cons, if_pos (by rw [name_update]; exact hx)]
    · rw [if_neg hx] at h
      rw [if_neg hx, findBook_cons, if_neg hx]
      exact ih h

theorem findBook_setQty_other {inv : List BookRecord} {n m : String}
    (hnm : m ≠ n) (q : Int) :
    findBook (setQty inv n q) m = findBook inv m := by
  induction inv with
  | nil => rfl
  | cons x xs ih =>
    rw [setQty_cons, findBook_cons, findBook_cons]
    by_cases hx : x.name = n
    · have hxm : ¬ (x.name = m) := by
        rw [hx]; exact fun hh => hnm hh.symm
      rw [if_pos hx, if_neg hxm, if_neg (by rw [name_update]; exact hxm)]
      exact ih
    · rw [if_neg hx]
      by_cases hm : x.name = m
      · rw [if_pos hm, if_pos hm]
      · rw [if_neg hm, if_neg hm]
        exact ih

theorem netEffect_append (l₁ l₂ : List TransactionRecord) (b : String) :
    netEffect (l₁ ++ l₂) b = netEffect l₁ b + netEffect l₂ b := by
  simp [netEffect, List.sum_append]

theorem netEffect_cons (r : TransactionRecord)
    (l : List TransactionRecord) (b : String) :
    netEffect (r :: l) b = contrib b r + netEffect l b := by
  simp [netEffect]

theorem netEffect_perm {l l' : List TransactionRecord}
    (h : l.Perm l') (b : String) : netEffect l b = netEffect l' b :=
  (h.map (contrib b)).sum_eq

theorem dropFirstMatch_nil (key : TxKey) :
    dropFirstMatch key [] = none := rfl

theorem dropFirstMatch_cons (key : TxKey) (r : TransactionRecord)
    (rs : List TransactionRecord) :
    dropFirstMatch key (r :: rs)
      = if txKey r = key then some (r, rs)
        else (dropFirstMatch key rs).map (fun p => (p.1, r :: p.2)) := rfl

theorem dropFirstMatch_eq {key : TxKey} :
    ∀ {l : List TransactionRecord} {d : TransactionRecord}
      {rest : List TransactionRecord},
    dropFirstMatch key l = some (d, rest) →
    txKey d = key ∧ l.Perm (d :: rest) := by
  intro l
  induction l with
  | nil =>
    intro d rest h
    rw [dropFirstMatch_nil] at h
    exact Option.noConfusion h
  | cons r rs ih =>
    intro d rest h
    rw [dropFirstMatch_cons] at h
    by_cases hr : txKey r = key
    · rw [if_pos hr] at h
      have h' : (r, rs) = (d, rest) := by injection h
      have h1 : r = d := congrArg Prod.fst h'
      have h2 : rs = rest := congrArg Prod.snd h'
      subst h1; subst h2
      exact ⟨hr, List.Perm.refl _⟩
    · rw [if_neg hr] at h
      cases hd : dropFirstMatch key rs with
      | none =>
        rw [hd] at h
        exact Option.noConfusion h
      | some p =>
        rw [hd] at h
        have h' : (p.1, r :: p.2) = (d, rest) := by
          injection h
        have h1 : p.1 = d := congrArg Prod.fst h'
        have h2 : r :: p.2 = rest := congrArg Prod.snd h'
        obtain ⟨hk, hperm⟩ := ih (show dropFirstMatch key rs = some (p.1, p.2) from hd)
        refine ⟨h1 ▸ hk, ?_⟩
        rw [← h2, ← h1]
        have hA : (r :: rs).Perm (r :: p.1 :: p.2) := List.Perm.cons r hperm
        have hB : (r :: p.1 :: p.2).Perm (p.1 :: r :: p.2) :=
          List.Perm.swap p.1 r p.2
        exact hA.trans hB

theorem dropFirstMatch_isSome_of_mem {key : TxKey}
    {l : List TransactionRecord} {r : TransactionRecord}
    (hmem : r ∈ l) (hk : txKey r = key) :
    ∃ p, dropFirstMatch key l = some p := by
  induction l with
  | nil => simp at hmem
  | cons x xs ih =>
    by_cases hx : txKey x = key
    · exact ⟨(x, xs), by rw [dropFirstMatch_cons, if_pos hx]⟩
    · have hr : r ∈ xs := by
        rcases List.mem_cons.mp hmem with h | h
        · exact absurd (h ▸ hk) hx
        · exact h
      obtain ⟨p, hp⟩ := ih hr
      refine ⟨(p.1, x :: p.2), ?_⟩
      rw [dropFirstMatch_cons, if_neg hx, hp]
      rfl

theorem dropFirstMatch_append_last {key : TxKey}
    {l : List TransactionRecord} {r : TransactionRecord}
    (hl : ∀ x ∈ l, txKey x ≠ key) (hr : txKey r = key) :
    dropFirstMatch key (l ++ [r]) = some (r, l) := by
  induction l with
  | nil =>
    show dropFirstMatch key (r :: []) = some (r, [])
    rw [dropFirstMatch_cons, if_pos hr]
  | cons x xs ih =>
    have hx : txKey x ≠ key := hl x (List.mem_cons_self x xs)
    have ih' := ih (fun y hy => hl y (List.mem_cons_of_mem x hy))
    show dropFirstMatch key (x :: (xs ++ [r])) = some (r, x :: xs)
    rw [dropFirstMatch_cons, if_neg hx, ih']
    rfl

theorem mem_of_mem_recentTx {log : List TransactionRecord}
    {r : TransactionRecord} (h : r ∈ recentTx log) : r ∈ log := by
  have h1 : r ∈ List.insertionSort
      (fun a b => tsGe a.timestamp b.timestamp = true) log :=
    List.take_subset 20 _ h
  exact (List.perm_insertionSort _ log).subset h1

theorem applyMovement_ok_shape {s : State} {k : Kind} {c n : String}
    {q : Int} {t : Timestamp} {s' : State}
    (h : applyMovement s k c n q t = Except.ok s') :
    ∃ bk, findBook s.inventory n = some bk ∧
      ∃ newQty,
        ((isIncreasing k = true ∧ newQty = bk.quantity + q) ∨
         (isIncreasing k = false ∧ ¬ bk.quantity < q
            ∧ newQty = bk.quantity - q)) ∧
        s' = commitMove s n newQty (mkTx t c n q bk.unitPrice k) := by
  unfold applyMovement at h
  split at h
  · exact Except.noConfusion h
  · split at h
    · exact Except.noConfusion h
    · rename_i bk hbk
      refine ⟨bk, hbk, ?_⟩
      split at h
      · rename_i hInc
        refine ⟨bk.quantity + q, Or.inl ⟨hInc, rfl⟩, ?_⟩
        injection h with h'
        exact h'.symm
      · rename_i hInc
        rw [Bool.not_eq_true] at hInc
        split at h
        · rename_i hDec
          split at h
          · exact Except.noConfusion h
          · rename_i hStock
            refine ⟨bk.quantity - q, Or.inr ⟨hInc, hStock, rfl⟩, ?_⟩
            injection h with h'
            exact h'.symm
        · rename_i hDec
          exact absurd (not_increasing_decreasing hInc) hDec

theorem revertTransaction_ok_shape {s : State} {key : TxKey} {s' : State}
    (h : revertTransaction s key = Except.ok s') :
    ∃ target,
      (recentTx s.transactions).find? (fun r => txKey r == key)
        = some target ∧
      ∃ bk, findBook s.inventory target.bookName = some bk ∧
      ∃ p, dropFirstMatch key s.transactions = some p ∧
        ¬ (bk.quantity + revertDelta target.kind target.quantity < 0) ∧
        s' = { s with
               inventory := setQty s.inventory target.bookName
                 (bk.quantity + revertDelta target.kind target.quantity),
               transactions := p.2 } := by
  unfold revertTransaction at h
  split at h
  · exact Except.noConfusion h
  · rename_i target htarget
    refine ⟨target, htarget, ?_⟩
    split at h
    · exact Except.noConfusion h
    · rename_i bk hbk
      refine ⟨bk, hbk, ?_⟩
      split at h
      · exact Except.noConfusion h
      · rename_i hneg
        split at h
        · exact Except.noConfusion h
        · rename_i p hp
          refine ⟨p, hp, hneg, ?_⟩
          injection h with h'
          exact h'.symm

theorem revertDelta_eq_neg_signed (k : Kind) (q : Int) :
    revertDelta k q = -(if isIncreasing k then q else -q) := by
  by_cases hI : isIncreasing k = true
  · simp [revertDelta, hI]
  · have hD := not_increasing_decreasing (Bool.eq_false_iff.mpr hI)
    simp [revertDelta, hI, hD]

theorem commit_conserves {s : State} {n : String} {bk : BookRecord}
    (hbk : findBook s.inventory n = some bk) (newQty : Int)
    (rec : TransactionRecord) (hrb : rec.bookName = n)
    (hdelta : newQty = bk.quantity + signedQty rec) (b : String) :
    qtyOf (commitMove s n newQty rec) b
      - netEffect (commitMove s n newQty rec).transactions b
      = qtyOf s b - netEffect s.transactions b := by
  by_cases hb : b = n
  · subst hb
    have h1 : qtyOf (commitMove s b newQty rec) b = newQty := by
      simp [qtyOf, commitMove, findBook_setQty_same hbk]
    have h2 : netEffect (commitMove s b newQty rec).transactions b
        = netEffect s.transactions b + signedQty rec := by
      simp [commitMove, netEffect_append, netEffect, contrib, hrb]
    have h3 : qtyOf s b = bk.quantity := by simp [qtyOf, hbk]
    rw [h1, h2, h3, hdelta]
    ring
  · have h1 : qtyOf (commitMove s n newQty rec) b = qtyOf s b := by
      simp [qtyOf, commitMove, findBook_setQty_other hb]
    have hc0 : contrib b rec = 0 := by
      rw [contrib, if_neg]
      rw [hrb]
      exact fun hh => hb hh.symm
    have h2 : netEffect (commitMove s n newQty rec).transactions b
        = netEffect s.transactions b := by
      simp [commitMove, netEffect_append, netEffect, hc0]
    rw [h1, h2]

theorem step_conserves (s : State) (op : Op) (b : String) :
    qtyOf (step s op) b - netEffect (step s op).transactions b
      = qtyOf s b - netEffect s.transactions b := by
  cases op with
  | move k c n q t =>
    cases ha : applyMovement s k c n q t with
    | error e => simp [step, ha]
    | ok s' =>
      have hstep : step s (Op.move k c n q t) = s' := by simp [step, ha]
      rw [hstep]
      obtain ⟨bk, hbk, newQty, hcase, hs'⟩ := applyMovement_ok_shape ha
      subst hs'
      refine commit_conserves hbk newQty _ rfl ?_ b
      rcases hcase with ⟨hI, hq⟩ | ⟨hI, hstock, hq⟩
      · rw [hq]
        show bk.quantity + q = bk.quantity + (if isIncreasing k then q else -q)
        rw [if_pos hI]
      · rw [hq]
        show bk.quantity - q = bk.quantity + (if isIncreasing k then q else -q)
        rw [if_neg (by rw [hI]; exact Bool.false_ne_true)]
        ring
  | revert key =>
    cases ha : revertTransaction s key with
    | error e => simp [step, ha]
    | ok s' =>
      have hstep : step s (Op.revert key) = s' := by simp [step, ha]
      rw [hstep]
      obtain ⟨target, htarget, bk, hbk, p, hp, hneg, hs'⟩ :=
        revertTransaction_ok_shape ha
      subst hs'
      obtain ⟨hkey, hperm⟩ := dropFirstMatch_eq hp
      have htk : txKey target = key := by
        have hfs := List.find?_some htarget
        simpa [beq_iff_eq] using hfs
      have h1 : txKey p.1 = txKey target := by rw [hkey, htk]
      have hbn : p.1.bookName = target.bookName := congrArg TxKey.bookName h1
      have hkd : p.1.kind = target.kind := congrArg TxKey.kind h1
      have hqq : p.1.quantity = target.quantity := congrArg TxKey.quantity h1
      have hnet : netEffect s.transactions b = contrib b p.1 + netEffect p.2 b := by
        rw [netEffect_perm hperm, netEffect_cons]
      have hdelta : revertDelta target.kind target.quantity = - signedQty p.1 := by
        rw [← hkd, ← hqq, revertDelta_eq_neg_signed]
        rfl
      by_cases hb : b = target.bookName
      · have h2 : qtyOf { s with
            inventory := setQty s.inventory target.bookName
              (bk.quantity + revertDelta target.kind target.quantity),
            transactions := p.2 } b
            = bk.quantity + revertDelta target.kind target.quantity := by
          rw [hb]
          simp [qtyOf, findBook_setQty_same hbk]
        have hpb : p.1.bookName = b := by rw [hbn, hb]
        have h3 : contrib b p.1 = signedQty p.1 := by
          rw [contrib, if_pos hpb]
        have h4 : qtyOf s b = bk.quantity := by
          rw [hb]
          simp [qtyOf, hbk]
        rw [h2, h4, hnet, h3, hdelta]
        ring
      · have h2 : qtyOf { s with
            inventory := setQty s.inventory target.bookName
              (bk.quantity + revertDelta target.kind target.quantity),
            transactions := p.2 } b = qtyOf s b := by
          simp [qtyOf, findBook_setQty_other hb]
        have h3 : contrib b p.1 = 0 := by
          rw [contrib, if_neg]
          rw [hbn]
          exact fun hh => hb hh.symm
        rw [h2, hnet, h3]
        ring

theorem exec_conserves (ops : List Op) (s : State) (b : String) :
    qtyOf (exec s ops) b - netEffect (exec s ops).transactions b
      = qtyOf s b - netEffect s.transactions b := by
  induction ops generalizing s with
  | nil => rfl
  | cons op ops ih =>
    have hx : exec s (op :: ops) = exec (step s op) ops := rfl
    rw [hx, ih (step s op), step_conserves]

theorem applyMovement_eval {s : State} {k : Kind} {c n : String}
    {q : Int} {t : Timestamp} {bk : BookRecord}
    (hbk : findBook s.inventory n = some bk)
    (hc : ¬ (clientExempt k = false ∧ c = "")) :
    applyMovement s k c n q t =
      if isIncreasing k then
        Except.ok (commitMove s n (bk.quantity + q)
          (mkTx t c n q bk.unitPrice k))
      else if bk.quantity < q then
        Except.error LedgerError.InsufficientStock
      else
        Except.ok (commitMove s n (bk.quantity - q)
          (mkTx t c n q bk.unitPrice k)) := by
  simp only [applyMovement, hbk, if_neg hc]
  by_cases hI : isIncreasing k = true
  · simp [hI]
  · have hD := not_increasing_decreasing (Bool.eq_false_iff.mpr hI)
    simp [hI, hD]

theorem revertTransaction_eval {s : State} {key : TxKey}
    {target : TransactionRecord} {bk : BookRecord}
    (htarget : (recentTx s.transactions).find? (fun r => txKey r == key)
      = some target)
    (hbk : findBook s.inventory target.bookName = some bk) :
    revertTransaction s key =
      if bk.quantity + revertDelta target.kind target.quantity < 0 then
        Except.error RevertError.WouldGoNegative
      else
        match dropFirstMatch key s.transactions with
        | none => Except.error RevertError.TargetNotFound
        | some p =>
          Except.ok { s with
            inventory := setQty s.inventory target.bookName
              (bk.quantity + revertDelta target.kind target.quantity),
            transactions := p.2 } := by
  simp only [revertTransaction, htarget, hbk]

theorem insertionSort_max_head {l : List TransactionRecord}
    {a : TransactionRecord} (ha : a ∈ l)
    (hmax : ∀ y ∈ l, y ≠ a → tsGe y.timestamp a.timestamp = false) :
    ∃ rest,
      List.insertionSort (fun x y => tsGe x.timestamp y.timestamp = true) l
        = a :: rest := by
  induction l with
  | nil => simp at ha
  | cons x xs ih =>
    by_cases hx : x = a
    · subst hx
      cases hs : List.insertionSort
          (fun x y => tsGe x.timestamp y.timestamp = true) xs with
      | nil =>
        refine ⟨[], ?_⟩
        rw [List.insertionSort, hs]
        rfl
      | cons b t =>
        have hbmem : b ∈ xs := by
          have hb : b ∈ List.insertionSort
              (fun x y => tsGe x.timestamp y.timestamp = true) xs := by
            rw [hs]
            exact List.mem_cons_self b t
          exact (List.perm_insertionSort _ xs).subset hb
        have hxb : tsGe x.timestamp b.timestamp = true := by
          by_cases hbx : b = x
          · rw [hbx]
            exact tsGe_refl _
          · exact tsGe_of_not_tsGe
              (hmax b (List.mem_cons_of_mem x hbmem) hbx)
        refine ⟨b :: t, ?_⟩
        rw [List.insertionSort, hs, List.orderedInsert, if_pos hxb]
    · have hamem : a ∈ xs := by
        rcases List.mem_cons.mp ha with h | h
        · exact absurd h.symm hx
        · exact h
      obtain ⟨rest, hrest⟩ :=
        ih hamem (fun y hy hne => hmax y (List.mem_cons_of_mem x hy) hne)
      have hxa : tsGe x.timestamp a.timestamp = false :=
        hmax x (List.mem_cons_self x xs) hx
      refine ⟨List.orderedInsert
        (fun x y => tsGe x.timestamp y.timestamp = true) x rest, ?_⟩
      rw [List.insertionSort, hrest, List.orderedInsert, if_neg]
      intro hcon
      rw [hxa] at hcon
      exact Bool.false_ne_true hcon

theorem recentTx_append_fresh {log : List TransactionRecord}
    {rec : TransactionRecord}
    (hfresh : ∀ r ∈ log, tsGe r.timestamp rec.timestamp = false) :
    ∃ rest, recentTx (log ++ [rec]) = rec :: rest := by
  have hmem : rec ∈ log ++ [rec] := by simp
  have hmax : ∀ y ∈ log ++ [rec], y ≠ rec →
      tsGe y.timestamp rec.timestamp = false := by
    intro y hy hne
    rcases List.mem_append.mp hy with h | h
    · exact hfresh y h
    · simp at h
      exact absurd h hne
  obtain ⟨rest, hrest⟩ := insertionSort_max_head hmem hmax
  refine ⟨rest.take 19, ?_⟩
  rw [recentTx, hrest]
  rfl

theorem kindTotal_monthlyData (log : List TransactionRecord) (m : Nat)
    (k : Kind) : kindTotal (monthlyData log m) k = sumForKind log m k := by
  have hswap : log.filter (fun r => (r.kind == k) && (r.timestamp.ym == m))
      = log.filter (fun r => (r.timestamp.ym == m) && (r.kind == k)) :=
    List.filter_congr (fun a _ => Bool.and_comm _ _)
  rw [kindTotal, monthlyData, List.filter_filter, hswap, sumForKind]

theorem setStatusFulfilled_idem (l : List OrderRequest) (i : Nat) :
    setStatusFulfilled (setStatusFulfilled l i) i = setStatusFulfilled l i := by
  cases h : l[i]? with
  | none => simp [setStatusFulfilled, h]
  | some o =>
    have hlen : i < l.length := (List.getElem?_eq_some.mp h).1
    have h2 : (l.set i { o with status := OrderStatus.FULFILLED })[i]?
        = some { o with status := OrderStatus.FULFILLED } := by
      rw [List.getElem?_set]
      simp [hlen]
    simp [setStatusFulfilled, h, h2, List.set_set]

theorem setStatusFulfilled_get (l : List OrderRequest) (i : Nat)
    (h : i < l.length) :
    ∃ o, (setStatusFulfilled l i)[i]? = some o
      ∧ o.status = OrderStatus.FULFILLED := by
  cases hg : l[i]? with
  | none =>
    rw [List.getElem?_eq_getElem h] at hg
    exact Option.noConfusion hg
  | some o =>
    refine ⟨{ o with status := OrderStatus.FULFILLED }, ?_, rfl⟩
    have h2 : (l.set i { o with status := OrderStatus.FULFILLED })[i]?
        = some { o with status := OrderStatus.FULFILLED } := by
      rw [List.getElem?_set]
      simp [h]
    simp [setStatusFulfilled, hg, h2]

theorem client_check_pass {k : Kind} {c : String}
    (hc : clientExempt k = true ∨ c ≠ "") :
    ¬ (clientExempt k = false ∧ c = "") := by
  rintro ⟨h1, h2⟩
  rcases hc with h | h
  · rw [h] at h1
    exact absurd h1 (by simp)
  · exact h h2

theorem isIncreasing_false_of_decreasing {k : Kind}
    (h : isDecreasing k = true) : isIncreasing k = false := by
  cases k <;> simp_all [isIncreasing, isDecreasing]

/-- C2: on an existing book with positive quantity, an increasing kind
adds the quantity, a decreasing kind with insufficient stock fails with
InsufficientStock leaving the state unchanged, and a decreasing kind with
sufficient stock subtracts the quantity; no committed quantity is ever
negative. -/
theorem applyMovement_stock_arithmetic (s : State) (k : Kind)
    (c n : String) (q : Int) (t : Timestamp) (bk : BookRecord)
    (hbk : findBook s.inventory n = some bk)
    (hq : 0 < q) (hnn : 0 ≤ bk.quantity)
    (hc : clientExempt k = true ∨ c ≠ "") :
    (isIncreasing k = true →
      ∃ s', applyMovement s k c n q t = Except.ok s' ∧
        qtyOf s' n = bk.quantity + q ∧ 0 ≤ qtyOf s' n) ∧
    (isDecreasing k = true → bk.quantity < q →
      applyMovement s k c n q t = Except.error LedgerError.InsufficientStock ∧
      step s (Op.move k c n q t) = s) ∧
    (isDecreasing k = true → q ≤ bk.quantity →
      ∃ s', applyMovement s k c n q t = Except.ok s' ∧
        qtyOf s' n = bk.quantity - q ∧ 0 ≤ qtyOf s' n) := by
  have heval := applyMovement_eval (q := q) (t := t) hbk (client_check_pass hc)
  refine ⟨?_, ?_, ?_⟩
  · intro hI
    rw [heval, if_pos hI]
    refine ⟨_, rfl, ?_, ?_⟩
    · simp [qtyOf, commitMove, findBook_setQty_same hbk]
    · simp [qtyOf, commitMove, findBook_setQty_same hbk]
      omega
  · intro hD hlt
    have hI := isIncreasing_false_of_decreasing hD
    have herr : applyMovement s k c n q t
        = Except.error LedgerError.InsufficientStock := by
      rw [heval, if_neg (by rw [hI]; exact Bool.false_ne_true), if_pos hlt]
    exact ⟨herr, by simp [step, herr]⟩
  · intro hD hge
    have hI := isIncreasing_false_of_decreasing hD
    rw [heval, if_neg (by rw [hI]; exact Bool.false_ne_true),
      if_neg (not_lt.mpr hge)]
    refine ⟨_, rfl, ?_, ?_⟩
    · simp [qtyOf, commitMove, findBook_setQty_same hbk]
    · simp [qtyOf, commitMove, findBook_setQty_same hbk]
      omega

theorem applyMovement_stock_arithmetic_witness :
    (isIncreasing Kind.OUT = true →
      ∃ s', applyMovement wState Kind.OUT "Bookstore A" "Intro to Systems"
          20 ⟨202501, 1⟩ = Except.ok s' ∧
        qtyOf s' "Intro to Systems" = wBook.quantity + 20
          ∧ 0 ≤ qtyOf s' "Intro to Systems") ∧
    (isDecreasing Kind.OUT = true → wBook.quantity < 20 →
      applyMovement wState Kind.OUT "Bookstore A" "Intro to Systems"
          20 ⟨202501, 1⟩ = Except.error LedgerError.InsufficientStock ∧
      step wState (Op.move Kind.OUT "Bookstore A" "Intro to Systems"
          20 ⟨202501, 1⟩) = wState) ∧
    (isDecreasing Kind.OUT = true → 20 ≤ wBook.quantity →
      ∃ s', applyMovement wState Kind.OUT "Bookstore A" "Intro to Systems"
          20 ⟨202501, 1⟩ = Except.ok s' ∧
        qtyOf s' "Intro to Systems" = wBook.quantity - 20
          ∧ 0 ≤ qtyOf s' "Intro to Systems") :=
  applyMovement_stock_arithmetic wState Kind.OUT "Bookstore A"
    "Intro to Systems" 20 ⟨202501, 1⟩ wBook (by decide) (by decide)
    (by decide) (Or.inr (by decide))

/-- C6: with an empty client, the movement is rejected with MissingClient
exactly when the kind is not DAMAGE; a DAMAGE movement with an empty
client succeeds (given the book exists and stock suffices) and appends a
record with the literal client "N/A", the current timestamp, the book,
the quantity, the book's current price and the kind. -/
theorem damage_client_exemption (s : State) (k : Kind) (n : String)
    (q : Int) (t : Timestamp) :
    (k ≠ Kind.DAMAGE →
      applyMovement s k "" n q t = Except.error LedgerError.MissingClient) ∧
    (k = Kind.DAMAGE →
      applyMovement s k "" n q t ≠ Except.error LedgerError.MissingClient) ∧
    (k = Kind.DAMAGE → ∀ bk, findBook s.inventory n = some bk →
      q ≤ bk.quantity →
      ∃ s', applyMovement s k "" n q t = Except.ok s' ∧
        s'.transactions = s.transactions ++
          [{ timestamp := t, client := "N/A", bookName := n, quantity := q,
             unitPrice := bk.unitPrice, kind := Kind.DAMAGE }]) := by
  refine ⟨?_, ?_, ?_⟩
  · intro hk
    have hce : clientExempt k = false := by
      cases k <;> simp_all [clientExempt]
    simp [applyMovement, hce]
  · intro hk
    subst hk
    cases hfb : findBook s.inventory n with
    | none => simp [applyMovement, hfb, clientExempt]
    | some bk =>
      by_cases hlt : bk.quantity < q
      · simp [applyMovement, hfb, clientExempt, isIncreasing,
          isDecreasing, hlt]
      · simp [applyMovement, hfb, clientExempt, isIncreasing,
          isDecreasing, hlt]
  · intro hk bk hbk hge
    subst hk
    have heval := applyMovement_eval (q := q) (t := t) hbk
      (show ¬ (clientExempt Kind.DAMAGE = false ∧ ("" : String) = "") by
        simp [clientExempt])
    rw [heval,
      if_neg (show ¬ (isIncreasing Kind.DAMAGE = true) by
        simp [isIncreasing]),
      if_neg (not_lt.mpr hge)]
    refine ⟨_, rfl, ?_⟩
    simp [commitMove, mkTx]

theorem damage_client_exemption_witness :
    ∃ s', applyMovement wState2 Kind.DAMAGE "" "b" 1 ⟨202501, 1⟩
        = Except.ok s' ∧
      s'.transactions = wState2.transactions ++
        [{ timestamp := ⟨202501, 1⟩, client := "N/A", bookName := "b",
           quantity := 1, unitPrice := wBook2.unitPrice,
           kind := Kind.DAMAGE }] :=
  (damage_client_exemption wState2 Kind.DAMAGE "b" 1 ⟨202501, 1⟩).2.2
    rfl wBook2 (by decide) (by decide)

/-- C4: when the inverse delta of the targeted record would drive the
book's quantity negative, the cancellation fails with WouldGoNegative and
mutates nothing. -/
theorem revert_wouldGoNegative (s : State) (key : TxKey)
    (target : TransactionRecord) (bk : BookRecord)
    (hfind : (recentTx s.transactions).find? (fun r => txKey r == key)
      = some target)
    (hbk : findBook s.inventory target.bookName = some bk)
    (hneg : bk.quantity + revertDelta target.kind target.quantity < 0) :
    revertTransaction s key = Except.error RevertError.WouldGoNegative ∧
    step s (Op.revert key) = s := by
  have heval := revertTransaction_eval hfind hbk
  have herr : revertTransaction s key
      = Except.error RevertError.WouldGoNegative := by
    rw [heval, if_pos hneg]
  exact ⟨herr, by simp [step, herr]⟩

theorem revert_wouldGoNegative_witness :
    revertTransaction c4State (txKey c4Tx)
      = Except.error RevertError.WouldGoNegative ∧
    step c4State (Op.revert (txKey c4Tx)) = c4State :=
  revert_wouldGoNegative c4State (txKey c4Tx) c4Tx c4Book
    (by decide) (by decide) (by decide)

/-- C10: a transaction whose structural key matches none of the 20 most
recent rows (by timestamp, descending) cannot be selected for
cancellation, even if it is still present in the log. -/
theorem revert_outside_window (s : State) (key : TxKey)
    (h : ∀ r ∈ recentTx s.transactions, txKey r ≠ key) :
    revertTransaction s key
      = Except.error RevertError.TargetNotInWindow := by
  have hfind : (recentTx s.transactions).find? (fun r => txKey r == key)
      = none := by
    rw [List.find?_eq_none]
    intro x hx
    simpa [beq_iff_eq] using h x hx
  simp [revertTransaction, hfind]

theorem revert_outside_window_witness :
    (∃ r ∈ c10State.transactions, txKey r = c10Key) ∧
    revertTransaction c10State c10Key
      = Except.error RevertError.TargetNotInWindow :=
  ⟨by decide, revert_outside_window c10State c10Key (by decide)⟩

theorem revertTransaction_eval_ok {s : State} {key : TxKey}
    {target : TransactionRecord} {bk : BookRecord}
    {p : TransactionRecord × List TransactionRecord}
    (htarget : (recentTx s.transactions).find? (fun r => txKey r == key)
      = some target)
    (hbk : findBook s.inventory target.bookName = some bk)
    (hdrop : dropFirstMatch key s.transactions = some p)
    (hge : ¬ (bk.quantity + revertDelta target.kind target.quantity < 0)) :
    revertTransaction s key = Except.ok { s with
      inventory := setQty s.inventory target.bookName
        (bk.quantity + revertDelta target.kind target.quantity),
      transactions := p.2 } := by
  rw [revertTransaction_eval htarget hbk, if_neg hge, hdrop]

/-- C3: reverting a just-committed movement (selected by its structural
tuple) restores the book's quantity to its exact pre-movement value and
removes exactly the appended record, returning the log to its previous
contents. -/
theorem revert_inverse_of_apply (s : State) (k : Kind)
    (client bookName : String) (q : Int) (now : Timestamp)
    (bk : BookRecord)
    (hbk : findBook s.inventory bookName = some bk)
    (hnn : 0 ≤ bk.quantity)
    (hc : clientExempt k = true ∨ client ≠ "")
    (hstock : isDecreasing k = true → q ≤ bk.quantity)
    (hfresh : ∀ r ∈ s.transactions, tsGe r.timestamp now = false) :
    ∃ s', applyMovement s k client bookName q now = Except.ok s' ∧
      s'.transactions = s.transactions
        ++ [mkTx now client bookName q bk.unitPrice k] ∧
      ∃ s'', revertTransaction s'
          (txKey (mkTx now client bookName q bk.unitPrice k))
          = Except.ok s'' ∧
        qtyOf s'' bookName = bk.quantity ∧
        s''.transactions = s.transactions ∧
        s''.orders = s.orders := by
  have heval := applyMovement_eval (q := q) (t := now) hbk
    (client_check_pass hc)
  have hstep1 : ∃ newQty,
      applyMovement s k client bookName q now
        = Except.ok (commitMove s bookName newQty
            (mkTx now client bookName q bk.unitPrice k))
      ∧ newQty + revertDelta k q = bk.quantity := by
    by_cases hI : isIncreasing k = true
    · refine ⟨bk.quantity + q, ?_, ?_⟩
      · rw [heval, if_pos hI]
      · simp [revertDelta, hI]
    · have hI' : isIncreasing k = false := Bool.eq_false_iff.mpr hI
      have hD := not_increasing_decreasing hI'
      refine ⟨bk.quantity - q, ?_, ?_⟩
      · rw [heval, if_neg hI, if_neg (not_lt.mpr (hstock hD))]
      · simp [revertDelta, hI', hD]
  obtain ⟨newQty, happly, hsum⟩ := hstep1
  refine ⟨_, happly, rfl, ?_⟩
  have hfresh' : ∀ r ∈ s.transactions,
      tsGe r.timestamp (mkTx now client bookName q bk.unitPrice k).timestamp
        = false := by
    intro r hr
    exact hfresh r hr
  obtain ⟨rest, hwin⟩ := recentTx_append_fresh hfresh'
  have hfind : (recentTx (commitMove s bookName newQty
        (mkTx now client bookName q bk.unitPrice k)).transactions).find?
      (fun r => txKey r
        == txKey (mkTx now client bookName q bk.unitPrice k))
      = some (mkTx now client bookName q bk.unitPrice k) := by
    show (recentTx (s.transactions
        ++ [mkTx now client bookName q bk.unitPrice k])).find?
      (fun r => txKey r
        == txKey (mkTx now client bookName q bk.unitPrice k))
      = some (mkTx now client bookName q bk.unitPrice k)
    rw [hwin]
    exact List.find?_cons_of_pos rest (by simp)
  have hbk' : findBook (commitMove s bookName newQty
        (mkTx now client bookName q bk.unitPrice k)).inventory
      (mkTx now client bookName q bk.unitPrice k).bookName
      = some { bk with quantity := newQty } := by
    show findBook (setQty s.inventory bookName newQty) bookName
      = some { bk with quantity := newQty }
    exact findBook_setQty_same hbk newQty
  have hkeys : ∀ x ∈ s.transactions,
      txKey x ≠ txKey (mkTx now client bookName q bk.unitPrice k) := by
    intro x hx he
    have hts : x.timestamp
        = (mkTx now client bookName q bk.unitPrice k).timestamp :=
      congrArg TxKey.timestamp he
    exact (eq_ts_of_not_tsGe (hfresh' x hx)) hts
  have hdrop : dropFirstMatch
      (txKey (mkTx now client bookName q bk.unitPrice k))
      (commitMove s bookName newQty
        (mkTx now client bookName q bk.unitPrice k)).transactions
      = some (mkTx now client bookName q bk.unitPrice k, s.transactions) :=
    dropFirstMatch_append_last hkeys rfl
  have hsum' : ({ bk with quantity := newQty } : BookRecord).quantity
      + revertDelta (mkTx now client bookName q bk.unitPrice k).kind
          (mkTx now client bookName q bk.unitPrice k).quantity
      = bk.quantity := hsum
  have hc1 : ¬ (({ bk with quantity := newQty } : BookRecord).quantity
      + revertDelta (mkTx now client bookName q bk.unitPrice k).kind
          (mkTx now client bookName q bk.unitPrice k).quantity < 0) := by
    rw [hsum']
    exact not_lt.mpr hnn
  have heval2 := revertTransaction_eval_ok hfind hbk' hdrop hc1
  rw [hsum'] at heval2
  refine ⟨_, heval2, ?_, rfl, rfl⟩
  have hfb := findBook_setQty_same (findBook_setQty_same hbk newQty)
    bk.quantity
  simp [qtyOf, commitMove, mkTx, hfb]

theorem revert_inverse_of_apply_witness :
    ∃ s', applyMovement wState Kind.OUT "Bookstore A" "Intro to Systems"
        20 ⟨202501, 1⟩ = Except.ok s' ∧
      s'.transactions = wState.transactions
        ++ [mkTx ⟨202501, 1⟩ "Bookstore A" "Intro to Systems" 20
              wBook.unitPrice Kind.OUT] ∧
      ∃ s'', revertTransaction s'
          (txKey (mkTx ⟨202501, 1⟩ "Bookstore A" "Intro to Systems" 20
            wBook.unitPrice Kind.OUT))
          = Except.ok s'' ∧
        qtyOf s'' "Intro to Systems" = wBook.quantity ∧
        s''.transactions = wState.transactions ∧
        s''.orders = wState.orders :=
  revert_inverse_of_apply wState Kind.OUT "Bookstore A" "Intro to Systems"
    20 ⟨202501, 1⟩ wBook (by decide) (by decide) (Or.inr (by decide))
    (fun _ => by decide) (by intro r hr; simp [wState] at hr)

/-- C1: over any sequence of movements and reversals from a loaded
catalog with an empty transaction log, every book's quantity equals its
initial quantity plus the signed sum of the currently present
transaction records for that book. -/
theorem ledger_quantity_invariant (s0 : State) (ops : List Op)
    (b : String) (h0 : s0.transactions = []) :
    qtyOf (exec s0 ops) b
      = qtyOf s0 b + netEffect (exec s0 ops).transactions b := by
  have h := exec_conserves ops s0 b
  rw [h0] at h
  have hz : netEffect [] b = 0 := rfl
  rw [hz] at h
  omega

theorem ledger_quantity_invariant_witness :
    qtyOf (exec wState [Op.move Kind.OUT "Bookstore A" "Intro to Systems"
        20 ⟨202501, 1⟩]) "Intro to Systems"
      = qtyOf wState "Intro to Systems"
        + netEffect (exec wState [Op.move Kind.OUT "Bookstore A"
            "Intro to Systems" 20 ⟨202501, 1⟩]).transactions
            "Intro to Systems" :=
  ledger_quantity_invariant wState
    [Op.move Kind.OUT "Bookstore A" "Intro to Systems" 20 ⟨202501, 1⟩]
    "Intro to Systems" rfl

/-- C5: the monthly financials compute
revenue = (S(OUT) + S(CANCEL_DECREASE)) - S(RETURN),
cost = (S(IN) + S(CANCEL_INCREASE)) + S(DAMAGE) and
netProfit = revenue - cost, where S(k) sums quantity * unitPrice over the
month's records of kind k; on the worked example they give 90000, 45000
and 45000. -/
theorem monthly_financials_formula :
    (∀ (log : List TransactionRecord) (m : Nat),
      revenue log m = (sumForKind log m Kind.OUT
          + sumForKind log m Kind.CANCEL_DECREASE)
        - sumForKind log m Kind.RETURN
      ∧ cost log m = (sumForKind log m Kind.IN
          + sumForKind log m Kind.CANCEL_INCREASE)
        + sumForKind log m Kind.DAMAGE
      ∧ netProfit log m = revenue log m - cost log m) ∧
    revenue exampleMonthLog 202501 = 90000 ∧
    cost exampleMonthLog 202501 = 45000 ∧
    netProfit exampleMonthLog 202501 = 45000 := by
  refine ⟨fun log m => ⟨?_, ?_, rfl⟩, by decide, by decide, by decide⟩
  · rw [revenue, kindTotal_monthlyData, kindTotal_monthlyData,
      kindTotal_monthlyData]
  · rw [cost, kindTotal_monthlyData, kindTotal_monthlyData,
      kindTotal_monthlyData]

/-- C7: for clients other than "N/A", the return-rate view yields
totalReturnedQty / totalOutQty * 100, and 0 when totalOutQty is 0. -/
theorem returnRate_formula (log : List TransactionRecord) (c : String)
    (h : c ≠ "N/A") :
    (totalOutQty log c = 0 → returnRateByClient log c = 0) ∧
    (totalOutQty log c ≠ 0 →
      returnRateByClient log c
        = (totalReturnedQty log c : ℚ) / (totalOutQty log c : ℚ) * 100) := by
  constructor
  · intro h0
    simp [returnRateByClient, h0]
  · intro h0
    simp [returnRateByClient, h0]

theorem returnRate_formula_witness :
    (totalOutQty exampleMonthLog "Bookstore A" = 0 →
      returnRateByClient exampleMonthLog "Bookstore A" = 0) ∧
    (totalOutQty exampleMonthLog "Bookstore A" ≠ 0 →
      returnRateByClient exampleMonthLog "Bookstore A"
        = (totalReturnedQty exampleMonthLog "Bookstore A" : ℚ)
          / (totalOutQty exampleMonthLog "Bookstore A" : ℚ) * 100) :=
  returnRate_formula exampleMonthLog "Bookstore A" (by decide)

/-- C8: a submitted order with a non-empty client for a catalog book
appends exactly one PENDING order row and leaves the catalog (and the
transaction log) entirely unchanged; no stock check is performed. -/
theorem submitOrder_appends_pending (s : State) (client bookName : String)
    (qty : Int) (now : Timestamp)
    (hc : client ≠ "")
    (hb : bookName ∈ s.inventory.map (fun b => b.name)) :
    ∃ s', submitOrder s client bookName qty now = Except.ok s' ∧
      s'.orders = s.orders
        ++ [OrderRequest.mk now client bookName qty OrderStatus.PENDING] ∧
      s'.inventory = s.inventory ∧
      s'.transactions = s.transactions := by
  have h : submitOrder s client bookName qty now
      = Except.ok (State.mk s.inventory s.transactions (s.orders
          ++ [OrderRequest.mk now client bookName qty
                OrderStatus.PENDING])) := by
    rw [submitOrder, if_neg hc]
  exact ⟨_, h, rfl, rfl, rfl⟩

theorem submitOrder_appends_pending_witness :
    ∃ s', submitOrder wState2 "alice" "b" 999 ⟨202501, 1⟩
        = Except.ok s' ∧
      s'.orders = wState2.orders
        ++ [OrderRequest.mk ⟨202501, 1⟩ "alice" "b" 999
              OrderStatus.PENDING] ∧
      s'.inventory = wState2.inventory ∧
      s'.transactions = wState2.transactions :=
  submitOrder_appends_pending wState2 "alice" "b" 999 ⟨202501, 1⟩
    (by decide) (by decide)

/-- C9: fulfilling an order is idempotent — a second call on the same
order leaves the same terminal state (status FULFILLED) and is a no-op
success, not an error. -/
theorem fulfillOrder_idempotent (s : State) (idx : Nat) :
    fulfillOrder (fulfillOrder s idx) idx = fulfillOrder s idx ∧
    (idx < s.orders.length →
      ∃ o, (fulfillOrder s idx).orders[idx]? = some o
        ∧ o.status = OrderStatus.FULFILLED) := by
  constructor
  · simp [fulfillOrder, setStatusFulfilled_idem]
  · intro h
    exact setStatusFulfilled_get s.orders idx h

theorem fulfillOrder_idempotent_witness :
    fulfillOrder (fulfillOrder wState3 0) 0 = fulfillOrder wState3 0 ∧
    (∃ o, (fulfillOrder wState3 0).orders[0]? = some o
      ∧ o.status = OrderStatus.FULFILLED) :=
  ⟨(fulfillOrder_idempotent wState3 0).1,
   (fulfillOrder_idempotent wState3 0).2 (by decide)⟩
